import Mathlib

/-!
Verification development for the FSDlib ConfigManager (`abc.py`): flow-ID
normalization, namespace loading, configuration stacking, genconf flattening
and flow resolution.  Python strings are embedded as `String` manipulated
through structural `List Char` operations so that every definition evaluates
by kernel reduction.  External collaborators (`ConfigFile`, the file store,
`CaseInsensitiveDict`) are modelled from the specification, as noted on each
definition.
-/

namespace FsdCM

/-- Right-biased choice on options: Python dict update semantics
(the second operand wins when it has a value). -/
def optRight (a b : Option String) : Option String :=
  match b with
  | some v => some v
  | none => a

/-- Lower-case a string character-wise (embedding of Python `str.lower` for
the ASCII range, via `Char.toLower`). -/
def lowerStr (s : String) : String := ⟨s.data.map Char.toLower⟩

/-- Upper-case a string character-wise (embedding of Python `str.upper` for
the ASCII range, via `Char.toUpper`). -/
def upperStr (s : String) : String := ⟨s.data.map Char.toUpper⟩

/-- Embedding of Python `str.strip`: drop leading and trailing whitespace. -/
def stripStr (s : String) : String :=
  ⟨((s.data.dropWhile Char.isWhitespace).reverse.dropWhile Char.isWhitespace).reverse⟩

/-- The characters of the character class `[ ._]` used by
`re.split('[ ._]', ...)` in `get_flow_id`, identified by code point. -/
def isSep (c : Char) : Bool := c.toNat = 32 || c.toNat = 46 || c.toNat = 95

/-- Prepend a character to the first piece of a split result. -/
def consHead (c : Char) : List (List Char) → List (List Char)
  | [] => [[c]]
  | t :: ts => (c :: t) :: ts

/-- Embedding of `re.split('[ ._]', s)`: split at every separator character,
keeping empty pieces (as Python does). -/
def splitSep : List Char → List (List Char)
  | [] => [[]]
  | c :: cs => if isSep c then [] :: splitSep cs else consHead c (splitSep cs)

/-- Embedding of Python `s.split("::")` (used on section headers):
left-to-right, non-overlapping. -/
def splitColons : List Char → List (List Char)
  | ':' :: ':' :: rest => [] :: splitColons rest
  | c :: rest => consHead c (splitColons rest)
  | [] => [[]]

/-- Embedding of Python `s.split(",")` (used on `for_flows` values). -/
def splitComma : List Char → List (List Char)
  | ',' :: rest => [] :: splitComma rest
  | c :: rest => consHead c (splitComma rest)
  | [] => [[]]

/-- Join pieces with a single joining character (Python `"_".join`). -/
def joinWith (j : Char) : List (List Char) → List Char
  | [] => []
  | [t] => t
  | t :: ts => t ++ j :: joinWith j ts

/-- Embedding of `posixpath.split(p)[1]`: the part after the last `/`. -/
def afterLastSlash (l : List Char) : List Char :=
  l.foldl (fun acc c => if c = '/' then [] else acc ++ [c]) []

/-- Embedding of `posixpath.splitext(p)[0]` for a path with no `/`:
drop the extension starting at the last dot, unless every character before
that dot is itself a dot (then there is no extension). -/
def stripExt (l : List Char) : List Char :=
  let rev := l.reverse
  let afterDot := rev.takeWhile (fun c => !(c = '.'))
  if afterDot.length = rev.length then l
  else
    let pre := rev.drop (afterDot.length + 1)
    if pre.any (fun c => !(c = '.')) then pre.reverse else l

/-- The character class `[0-9]` of the suffix regex. -/
def isDig (c : Char) : Bool := 48 ≤ c.toNat && c.toNat ≤ 57

/-- Consume exactly `n` digits, returning the rest of the input. -/
def digitsN : Nat → List Char → Option (List Char)
  | 0, l => some l
  | _ + 1, [] => none
  | n + 1, c :: cs => if isDig c then digitsN n cs else none

/-- Does one of the four alternatives of the suffix regex
`[0-9]{8}.*|[0-9]{6}_.*|(?i)WE[0-9]{6}.*|(?i)D[0-9]{6}.*` match at the head
of the input?  `(?i)` makes `WE`/`D` case-insensitive. -/
def suffixMatch (l : List Char) : Bool :=
  (digitsN 8 l).isSome
  || (match digitsN 6 l with
      | some ('_' :: _) => true
      | _ => false)
  || (match l with
      | c1 :: c2 :: rest =>
        (c1 = 'W' || c1 = 'w') && (c2 = 'E' || c2 = 'e') && (digitsN 6 rest).isSome
      | _ => false)
  || (match l with
      | c :: rest => (c = 'D' || c = 'd') && (digitsN 6 rest).isSome
      | _ => false)

/-- Embedding of `re.sub(pattern, "", filename)` for the suffix regex: each
alternative ends in `.*`, so the leftmost match deletes everything from the
match position to the end of the (newline-free) filename. -/
def deleteSuffix : List Char → List Char
  | [] => []
  | c :: cs => if suffixMatch (c :: cs) then [] else c :: deleteSuffix cs

/-- The normalization core of `get_flow_id` applied after path/extension
stripping, exactly in the source's order: delete the date suffix, upper-case,
split on `[ ._]`, drop empty tokens, join with `_`. -/
def normalizeCode (l : List Char) : List Char :=
  joinWith '_' ((splitSep ((deleteSuffix l).map Char.toUpper)).filter (fun t => !t.isEmpty))

/-- The error taxonomy of the config manager: `ConfigError` (base) and
`ConfigNotFound` are classes in the source; `flowIdError` stands for the bare
`Exception` raised by `get_flow_id`. -/
inductive CMError where
  | configError (msg : String)
  | configNotFound (msg : String)
  | flowIdError (msg : String)
deriving DecidableEq, Repr

/-- The message of the `get_flow_id` blank-normalization error, formatted as
in the source (the second `%s` is the blank normalized value). -/
def blankFlowMsg (orig : String) : String :=
  "Flow ID normalized '" ++ orig ++ "' to a blank value (''), please check filename and process for potential unexpected behavior."

/-- Embedding of `get_flow_id`: `none` input (or an empty filename, both falsy
in Python) yields `none`; otherwise strip path and extension, normalize, and
fail if the result is blank. -/
def get_flow_id (orig_filename : Option String) : Except CMError (Option String) :=
  match orig_filename with
  | none => .ok none
  | some s =>
    if s.data.isEmpty then .ok none
    else
      let filename := stripExt (afterLastSlash s.data)
      let normname := normalizeCode filename
      if normname.isEmpty then .error (.flowIdError (blankFlowMsg s))
      else .ok (some ⟨normname⟩)

instance {ε α : Type} [DecidableEq ε] [DecidableEq α] : DecidableEq (Except ε α) := fun a b =>
  match a, b with
  | .ok x, .ok y => if h : x = y then isTrue (by simp [h]) else isFalse (by simp [h])
  | .error x, .error y => if h : x = y then isTrue (by simp [h]) else isFalse (by simp [h])
  | .ok _, .error _ => isFalse (by simp)
  | .error _, .ok _ => isFalse (by simp)

/-- First-match association-list lookup (Python dict access; the dicts built
by this code never hold duplicate keys). -/
def alGet {α : Type} : List (String × α) → String → Option α
  | [], _ => none
  | e :: t, k => if e.1 = k then some e.2 else alGet t k

/-! ## Case-insensitive dictionary

Modelled from the spec: `CaseInsensitiveDict` (external collaborator from
`fsd2.core.utils`) compares keys case-insensitively while "original casing of
the last write is retained for iteration/printing purposes".  A dict is a
list of write events; lookup returns the value of the last write whose key
matches case-insensitively, iteration enumerates one entry per distinct
case-folded key carrying the casing and value of its last write. -/

/-- Case-fold a `(section, key)` pair for comparison. -/
def ciNorm (k : String × String) : String × String := (lowerStr k.1, lowerStr k.2)

/-- A case-insensitive `(section, key) → value` dictionary as the list of its
write events, oldest first. -/
structure CIDict where
  entries : List ((String × String) × String)
deriving DecidableEq, Repr

/-- Value of the last case-insensitive match in a list of write events. -/
def lookupCi (l : List ((String × String) × String)) (k : String × String) : Option String :=
  l.foldl (fun acc e => if ciNorm e.1 = ciNorm k then some e.2 else acc) none

/-- Case-insensitive lookup (Python `CaseInsensitiveDict.__getitem__`,
total, returning `none` on a miss). -/
def CIDict.get (d : CIDict) (k : String × String) : Option String :=
  lookupCi d.entries k

/-- Python `dict.update`: the other dictionary's writes happen after ours. -/
def CIDict.updateWith (d e : CIDict) : CIDict := ⟨d.entries ++ e.entries⟩

/-- One canonicalization step: a new write removes any previous entry with
the same case-folded key and is appended. -/
def canonStep (acc : List ((String × String) × String)) (e : (String × String) × String) :
    List ((String × String) × String) :=
  acc.filter (fun x => !(ciNorm x.1 = ciNorm e.1 : Bool)) ++ [e]

/-- The canonical entry list: one entry per distinct case-folded key, with the
casing and value of its last write. -/
def CIDict.canon (d : CIDict) : List ((String × String) × String) :=
  d.entries.foldl canonStep []

/-- The keys served for iteration: original casing of each key's last write. -/
def CIDict.keys (d : CIDict) : List (String × String) :=
  d.canon.map (fun e => e.1)

/-- Python `len`: the number of distinct (case-folded) keys. -/
def CIDict.size (d : CIDict) : Nat := d.keys.length

/-! ## Config sources and the file store -/

/-- The two parse styles reported by a `ConfigFile`
(`PARSE_SIMPLE` / `PARSE_FULL`). -/
inductive ParseStyle where
  | simple
  | full
deriving DecidableEq, Repr

/-- Modelled from the spec: a parsed `ConfigFile` (external Config Source
collaborator from `fsd2.core.config`).  `headers` is the ordered list of raw
section labels (including the `section::namespace` form); `sectionData` gives
each raw header's key/value entries (the accessor `conf_file[header]`);
`simpleData` holds the flat entries of a `SIMPLE`-style file.  `path` stands
for both `.path` and `.file.path` of the source object. -/
structure ConfigFile where
  path : String
  parsestyle : ParseStyle
  headers : List String
  sectionData : List (String × List (String × String))
  simpleData : List (String × String)
deriving DecidableEq, Repr

/-- Accessor `conf_file[header]`: the entries of a raw section header
(empty when the header is absent; the source only queries present headers). -/
def ConfigFile.section_ (cf : ConfigFile) (h : String) : List (String × String) :=
  match alGet cf.sectionData h with
  | some kvs => kvs
  | none => []

/-- Modelled from the spec: accessor `conf_file.get((section, key), default)`
used by the flow resolver on `("flow_setup", "for_flows")`. -/
def ConfigFile.getKV (cf : ConfigFile) (sec key dflt : String) : String :=
  match alGet (cf.section_ sec) key with
  | some v => v
  | none => dflt

/-- Modelled from the spec: the configuration root directory.  Each entry is a
file path together with its parse outcome (`none` when the file is missing or
fails to parse — `ConfigFile(...)` raises in both cases).  The list order is
the file store's listing order. -/
structure Env where
  files : List (String × Option ConfigFile)
deriving DecidableEq, Repr

/-- Attempting `ConfigFile(path)`: the recorded parse outcome of the path. -/
def Env.parse (env : Env) (p : String) : Option ConfigFile :=
  match alGet env.files p with
  | some o => o
  | none => none

/-! ## Paths and masks -/

/-- The configuration root `CM_PATH` (its `get_fs_env()` component is
external; a fixed environment name is used). -/
def CM_PATH : String := "/datalakebin/env/fsd/consumption/conf/"

/-- Replace every `*` in a mask by a replacement (Python `str.replace` with a
one-character pattern; the replacement is spliced in unscanned). -/
def replaceStar (repl : List Char) : List Char → List Char
  | [] => []
  | '*' :: rest => repl ++ replaceStar repl rest
  | c :: rest => c :: replaceStar repl rest

/-- Python `s.replace(".prm", "")`: delete every occurrence of `.prm`,
left-to-right, non-overlapping. -/
def dropPrmOcc : List Char → List Char
  | '.' :: 'p' :: 'r' :: 'm' :: rest => dropPrmOcc rest
  | c :: rest => c :: dropPrmOcc rest
  | [] => []

/-- `CM_MASK`: the default namespace glob. -/
def CM_MASK : String := "CM_FSD_*.prm"

/-- `CM_FLOW_MASK = CM_MASK.replace("*", "FLOW_*")`. -/
def CM_FLOW_MASK : String := ⟨replaceStar "FLOW_*".data CM_MASK.data⟩

/-- `CM_GEN_MASK = CM_FLOW_MASK.replace("*", "GEN_*")`. -/
def CM_GEN_MASK : String := ⟨replaceStar "GEN_*".data CM_FLOW_MASK.data⟩

/-- `os.path.join` as used on `CM_PATH` (which ends in `/`) and a plain file
name. -/
def osJoin (a b : String) : String :=
  match b.data with
  | '/' :: _ => b
  | _ =>
    if a.data.isEmpty then a ++ b
    else match a.data.getLast? with
      | some '/' => a ++ b
      | _ => a ++ "/" ++ b

/-- `ConfigManager.make_conf_path`: `os.path.join(CM_PATH, namespace + ".prm")`. -/
def make_conf_path (ns : String) : String := osJoin CM_PATH (ns ++ ".prm")

/-- Glob matching with fuel (structural so that it kernel-reduces);
`fnmatch` on POSIX with the `*`/`?` constructs actually used by the masks.
The initial fuel `|p| + |s| + 1` suffices since every step shrinks
`|p| + |s|`. -/
def globMatchF : Nat → List Char → List Char → Bool
  | 0, _, _ => false
  | _ + 1, [], [] => true
  | fuel + 1, '*' :: ps, [] => globMatchF fuel ps []
  | fuel + 1, '*' :: ps, c :: cs =>
    globMatchF fuel ps (c :: cs) || globMatchF fuel ('*' :: ps) cs
  | fuel + 1, '?' :: ps, _ :: cs => globMatchF fuel ps cs
  | fuel + 1, p :: ps, c :: cs => p = c && globMatchF fuel ps cs
  | _ + 1, _ :: _, [] => false
  | _ + 1, [], _ :: _ => false

/-- `fnmatch.fnmatch(name, mask)` on POSIX. -/
def fnmatch (name mask : String) : Bool :=
  globMatchF (mask.data.length + name.data.length + 1) mask.data name.data

/-! ## Namespace loader -/

/-- The `ConfigNotFound` message of a failed required namespace load. -/
def cnfMsg (ns pth : String) : String :=
  "Problem loading configuration file for namespace '" ++ ns ++ "' at path '" ++ pth ++ "'."

/-- Python dict assignment `m[k] = v`: replace an existing binding in place or
append a new one. -/
def dictSet {α : Type} (m : List (String × α)) (k : String) (v : α) : List (String × α) :=
  match m with
  | [] => [(k, v)]
  | (k', v') :: rest => if k' = k then (k, v) :: rest else (k', v') :: dictSet rest k v

/-- The loop of `ConfigManager.get_configs` over the requested namespaces,
carrying the accumulated `rtn_confs` dict. -/
def get_configsAux (env : Env) (required : Bool) :
    List String → List (String × ConfigFile) → Except CMError (List (String × ConfigFile))
  | [], acc => .ok acc
  | ns :: rest, acc =>
    let NS := upperStr ns
    let pth := make_conf_path NS
    match env.parse pth with
    | some cf => get_configsAux env required rest (dictSet acc NS cf)
    | none =>
      if required then .error (.configNotFound (cnfMsg NS pth))
      else get_configsAux env required rest acc

/-- `ConfigManager.get_configs`: load the requested namespaces
(upper-cased); with `required` a missing/unparseable file raises
`ConfigNotFound`, otherwise it is skipped (logged only). -/
def get_configs (env : Env) (namespaces : List String) (required : Bool) :
    Except CMError (List (String × ConfigFile)) :=
  get_configsAux env required namespaces []

/-! ## File listing and the flow resolver -/

/-- `ConfigManager.list_config_files`: the directory entries whose base name
matches the mask, in listing order (each entry keeps its parse outcome). -/
def list_config_files (env : Env) (mask : String) : List (String × Option ConfigFile) :=
  env.files.filter (fun e => fnmatch ⟨afterLastSlash e.1.data⟩ mask)

/-- `ConfigManager.list_configs`: yield the files that parse successfully;
parse failures are logged as warnings and skipped. -/
def list_configs (files : List (String × Option ConfigFile)) : List ConfigFile :=
  files.filterMap (fun e => e.2)

/-- The genconf filter of `get_config_by_flow`: is the (already upper-cased)
flow ID among the comma-separated, upper-cased and stripped entries of the
file's `(flow_setup, for_flows)` value? -/
def flowMatches (flow_id : String) (cfg : ConfigFile) : Bool :=
  (splitComma (cfg.getKV "flow_setup" "for_flows" "").data).any
    (fun name => stripStr (upperStr ⟨name⟩) = flow_id)

/-- The generic-mask candidates that declare the flow: parse-ok files matching
`CM_GEN_MASK` whose `for_flows` list contains the flow ID. -/
def genconfMatches (env : Env) (flow_id : String) : List ConfigFile :=
  (list_configs (list_config_files env CM_GEN_MASK)).filter (flowMatches flow_id)

/-- The dedicated-flow namespace: `CM_FLOW_MASK.replace("*", flow_id).replace(".prm", "")`. -/
def flowNamespace (flow_id : String) : String :=
  ⟨dropPrmOcc (replaceStar flow_id.data CM_FLOW_MASK.data)⟩

/-- The `ConfigNotFound` message of a flow with no configuration. -/
def noFlowMsg (flow_id : String) : String :=
  "No configuration file found for handling flow_id '" ++ flow_id ++ "'."

/-- Concatenate strings with comma separators (Python `",".join`). -/
def joinComma : List String → String
  | [] => ""
  | [s] => s
  | s :: rest => s ++ "," ++ joinComma rest

/-- The `ConfigError` message of an ambiguous flow, naming every matching
file's path. -/
def ambiguousMsg (flow_id : String) (ms : List ConfigFile) : String :=
  "More than one configuration file was found for handling flow_id '" ++ flow_id ++ "' ("
    ++ joinComma (ms.map (fun c => c.path)) ++ ")"

/-- `ConfigManager.get_config_by_flow`: try the dedicated namespace first
(non-required load); otherwise filter the generic-mask candidates by their
`for_flows` declaration — exactly one match wins, zero raises
`ConfigNotFound`, more than one raises `ConfigError`. -/
def get_config_by_flow (env : Env) (flow_id0 : String) : Except CMError ConfigFile :=
  let flow_id := upperStr flow_id0
  let ns := flowNamespace flow_id
  match get_configs env [ns] false with
  | .error e => .error e
  | .ok conf_file =>
    match conf_file with
    | (_, cf) :: _ => .ok cf
    | [] =>
      match genconfMatches env flow_id with
      | [c] => .ok c
      | [] => .error (.configNotFound (noFlowMsg flow_id))
      | cs => .error (.configError (ambiguousMsg flow_id cs))

/-! ## Config stacker -/

/-- Code-point comparison of character lists (Python string `<`). -/
def lexLt : List Char → List Char → Bool
  | [], [] => false
  | [], _ :: _ => true
  | _ :: _, [] => false
  | a :: as, b :: bs =>
    if a.toNat < b.toNat then true
    else if b.toNat < a.toNat then false
    else lexLt as bs

/-- Python string `<=` (total code-point lexicographic order). -/
def strLeB (a b : String) : Bool := !(lexLt b.data a.data)

/-- Insert into a `strLeB`-sorted list, keeping it sorted. -/
def insSorted (x : String) : List String → List String
  | [] => [x]
  | y :: ys => if strLeB x y then x :: y :: ys else y :: insSorted x ys

/-- Embedding of Python `sorted` on strings (insertion sort; on the
duplicate-free key lists actually sorted here the result is the unique
sorted permutation). -/
def sortStr (l : List String) : List String := l.foldr insSorted []

/-- What one loaded source contributes to the stack: a `SIMPLE`-style file's
entries go under the empty-string section, a `FULL`-style file's entries go
under their own raw `(section, key)` pairs. -/
def configItems (cf : ConfigFile) : List ((String × String) × String) :=
  match cf.parsestyle with
  | .simple => cf.simpleData.map (fun kv => (("", kv.1), kv.2))
  | .full => (cf.sectionData.map (fun hs => hs.2.map (fun kv => ((hs.1, kv.1), kv.2)))).flatten

/-- `ConfigManager.process_configs`: stack the loaded namespaces in
lexicographic order of their names, later namespaces' writes happening
later (so they win on collision). -/
def process_configs (confs_dict : List (String × ConfigFile)) : CIDict :=
  let confkeys := sortStr (confs_dict.map Prod.fst)
  ⟨(confkeys.map (fun k =>
      match alGet confs_dict k with
      | some cf => configItems cf
      | none => [])).flatten⟩

/-! ## GenConf flattener -/

/-- `headers[k].add(ns)` on the `{header : set(namespaces)}` map of
`process_genconf`; the set is a duplicate-free list in insertion order. -/
def alAddNs (m : List (String × List String)) (k ns : String) : List (String × List String) :=
  match m with
  | [] => [(k, [ns])]
  | (k', s) :: rest =>
    if k' = k then (k', if ns ∈ s then s else s ++ [ns]) :: rest
    else (k', s) :: alAddNs rest k ns

/-- One header of the enumeration loop of `process_genconf`: split on `::`;
a flow-qualified header is recorded only when its first qualifier equals the
(lowered) flow ID, an unqualified header is recorded as `''`. -/
def headerStep (flowLower : String) (m : List (String × List String)) (fk : String) :
    List (String × List String) :=
  let splithdr := splitColons fk.data
  let k : String := ⟨splithdr.headD []⟩
  match splithdr.drop 1 with
  | n :: _ => if lowerStr ⟨n⟩ = flowLower then alAddNs m k ⟨n⟩ else m
  | [] => alAddNs m k ""

/-- `fields_base[k].update(ns_dict)` with `defaultdict(dict)` semantics: the
update's writes are appended to the section's field list (created on first
access). -/
def alAppendKV (m : List (String × List (String × String))) (k : String)
    (kvs : List (String × String)) : List (String × List (String × String)) :=
  match m with
  | [] => [(k, kvs)]
  | (k', s) :: rest =>
    if k' = k then (k', s ++ kvs) :: rest
    else (k', s) :: alAppendKV rest k kvs

/-- `ConfigManager.process_genconf`: flatten a (possibly namespace-qualified)
genconf source for one flow — base fields from unqualified headers, each
matching flow-qualified header's fields applied on top, all as a flat
case-insensitive `(section, key) → value` mapping. -/
def process_genconf (conf_file : ConfigFile) (flow_id : String) : CIDict :=
  let flowLower := lowerStr flow_id
  let headers := conf_file.headers.foldl (headerStep flowLower) []
  let fields_base := headers.filterMap (fun e =>
    if "" ∈ e.2 then some (e.1, conf_file.section_ e.1) else none)
  let headers2 := headers.map (fun e => (e.1, e.2.filter (fun n => !(n = "" : Bool))))
  let fields := headers2.foldl (fun acc e =>
    match e.2 with
    | [] => acc
    | n :: _ => alAppendKV acc e.1 (conf_file.section_ (e.1 ++ "::" ++ n))) fields_base
  ⟨(fields.map (fun e => e.2.map (fun kv => ((e.1, kv.1), kv.2)))).flatten⟩

/-! ## ConfigManager facade -/

/-- A constructed `ConfigManager`: the file store handle, the required
namespaces' sources (`self._configfiles`) and the merged configuration
(`self.confs`). -/
structure ConfigManager where
  env : Env
  configfiles : List (String × ConfigFile)
  confs : CIDict
deriving DecidableEq, Repr

/-- `ConfigManager.__init__`: load the required namespaces (all-or-nothing),
stack them, then — when a flow was given explicitly or derived from a
filename — resolve the flow's source, flatten it, and layer it on top. -/
def mkConfigManager (env : Env) (req_namespaces : List String)
    (flow filename : Option String) : Except CMError ConfigManager := do
  let configfiles ← get_configs env req_namespaces true
  let confs := process_configs configfiles
  let req_flow0 := match flow with
    | some f => if f.data.isEmpty then none else some f
    | none => none
  let req_flow ← match req_flow0 with
    | some f => pure (some f)
    | none => get_flow_id filename
  match req_flow with
  | some fl =>
    if fl.data.isEmpty then pure ⟨env, configfiles, confs⟩
    else do
      let flow_conf ← get_config_by_flow env fl
      let flow_dict := process_genconf flow_conf fl
      pure ⟨env, configfiles, confs.updateWith flow_dict⟩
  | none => pure ⟨env, configfiles, confs⟩

/-- The `KeyError` message of a single-key lookup miss. -/
def keyNotPresentMsg (key : String) : String := "Key '" ++ key ++ "' not present"

/-- `ConfigManager.__getitem__` with a single string key: the sub-dict
`{w : confs[v, w]}` over all stored keys `(v, w)` whose stored section name
`v` equals the lowered query, or `KeyError` when that sub-dict is empty. -/
def cmGetSection (cm : ConfigManager) (key : String) :
    Except String (List (String × String)) :=
  let rtndict := cm.confs.keys.filterMap (fun vw =>
    if vw.1 = lowerStr key then (cm.confs.get vw).map (fun x => (vw.2, x)) else none)
  if rtndict.isEmpty then .error (keyNotPresentMsg key) else .ok rtndict

/-- `ConfigManager.__getitem__` with a `(section, key)` pair: the merged
mapping's case-insensitive lookup, `KeyError` on a miss. -/
def cmGetPair (cm : ConfigManager) (sec key : String) : Except String String :=
  match cm.confs.get (sec, key) with
  | some v => .ok v
  | none => .error "KeyError"

/-- `ConfigManager.__len__`. -/
def cmLen (cm : ConfigManager) : Nat := cm.confs.size

/-- `ConfigManager.__iter__`: the `(section, key)` pairs of the merged
configuration. -/
def cmIter (cm : ConfigManager) : List (String × String) := cm.confs.keys

/-- Attribute access `.path` on a namespace name: iterating the Python dict
`self._configfiles` yields its KEYS — namespace strings — and a string has no
`path` attribute, so Python raises `AttributeError`. -/
def strPathAttr (s : String) : Except String String :=
  .error ("AttributeError: string namespace key has no path attribute: " ++ s)

/-- The `files` property as written in the source:
`list(set(c.path for c in self._configfiles))` — `c` ranges over the dict's
keys, so `.path` is looked up on strings. -/
def filesProp (cm : ConfigManager) : Except String (List String) := do
  let paths ← (cm.configfiles.map Prod.fst).mapM strPathAttr
  pure paths.dedup

/-- What the `files` docstring and the spec intend: the de-duplicated list of
the loaded sources' file paths (`c.path` for the dict's VALUES). -/
def filesIntended (cm : ConfigManager) : List String :=
  ((cm.configfiles.map Prod.snd).map ConfigFile.path).dedup

/-! ## Lemmas about the case-insensitive dictionary -/

@[simp] theorem optRight_some (a : Option String) (v : String) : optRight a (some v) = some v := rfl

@[simp] theorem optRight_none (a : Option String) : optRight a none = a := rfl

@[simp] theorem optRight_none_left (b : Option String) : optRight none b = b := by
  cases b <;> rfl

theorem optRight_assoc (a b c : Option String) :
    optRight (optRight a b) c = optRight a (optRight b c) := by
  cases c <;> cases b <;> rfl

theorem lookupCi_foldl_init (k : String × String)
    (l : List ((String × String) × String)) (a : Option String) :
    l.foldl (fun acc e => if ciNorm e.1 = ciNorm k then some e.2 else acc) a
      = optRight a (lookupCi l k) := by
  induction l generalizing a with
  | nil => simp [lookupCi]
  | cons e t ih =>
    simp only [lookupCi, List.foldl_cons] at ih ⊢
    rw [ih, ih (if ciNorm e.1 = ciNorm k then some e.2 else none)]
    by_cases h : ciNorm e.1 = ciNorm k
    · simp only [if_pos h]
      cases List.foldl (fun acc e => if ciNorm e.1 = ciNorm k then some e.2 else acc) none t <;>
        simp
    · simp only [if_neg h]
      cases List.foldl (fun acc e => if ciNorm e.1 = ciNorm k then some e.2 else acc) none t <;>
        simp

theorem lookupCi_append (l₁ l₂ : List ((String × String) × String)) (k : String × String) :
    lookupCi (l₁ ++ l₂) k = optRight (lookupCi l₁ k) (lookupCi l₂ k) := by
  simp only [lookupCi, List.foldl_append]
  rw [lookupCi_foldl_init]
  rfl

theorem lookupCi_single (e : (String × String) × String) (k : String × String) :
    lookupCi [e] k = if ciNorm e.1 = ciNorm k then some e.2 else none := rfl

theorem lookupCi_cons (e : (String × String) × String)
    (t : List ((String × String) × String)) (k : String × String) :
    lookupCi (e :: t) k = optRight (lookupCi [e] k) (lookupCi t k) := by
  rw [show e :: t = [e] ++ t from rfl, lookupCi_append]

theorem CIDict.get_updateWith (d e : CIDict) (k : String × String) :
    (d.updateWith e).get k = optRight (d.get k) (e.get k) := by
  simp only [CIDict.get, CIDict.updateWith]
  exact lookupCi_append d.entries e.entries k

theorem lookupCi_congr (l : List ((String × String) × String)) {k k' : String × String}
    (h : ciNorm k = ciNorm k') : lookupCi l k = lookupCi l k' := by
  simp only [lookupCi, h]

theorem lookupCi_eq_none_of_not_mem (l : List ((String × String) × String))
    (k : String × String) (h : ciNorm k ∉ l.map (fun e => ciNorm e.1)) :
    lookupCi l k = none := by
  induction l with
  | nil => rfl
  | cons e t ih =>
    have h1 : ¬(ciNorm e.1 = ciNorm k) := by
      intro hc
      exact h (by simp [hc])
    have h2 : ciNorm k ∉ t.map (fun e => ciNorm e.1) := by
      intro hc
      exact h (by simp [hc])
    rw [lookupCi_cons, ih h2, lookupCi_single, if_neg h1]
    rfl

theorem lookupCi_filter_ne (l : List ((String × String) × String))
    (n k : String × String) (h : ciNorm k ≠ ciNorm n) :
    lookupCi (l.filter (fun x => !(ciNorm x.1 = ciNorm n : Bool))) k = lookupCi l k := by
  induction l with
  | nil => rfl
  | cons e t ih =>
    by_cases he : ciNorm e.1 = ciNorm n
    · have hek : ¬(ciNorm e.1 = ciNorm k) := by
        rw [he]
        exact fun hc => h hc.symm
      rw [List.filter_cons, if_neg (by simp [he]), ih, lookupCi_cons, lookupCi_single,
        if_neg hek]
      simp
    · rw [List.filter_cons, if_pos (by simp [he]), lookupCi_cons, ih]
      conv_rhs => rw [lookupCi_cons]

theorem lookupCi_canonStep (acc : List ((String × String) × String))
    (e : (String × String) × String) (k : String × String) :
    lookupCi (canonStep acc e) k
      = optRight (lookupCi acc k) (lookupCi [e] k) := by
  unfold canonStep
  rw [lookupCi_append]
  by_cases h : ciNorm e.1 = ciNorm k
  · rw [lookupCi_single, if_pos h]
    simp
  · rw [lookupCi_single, if_neg h]
    have hke : ciNorm k ≠ ciNorm e.1 := fun hc => h hc.symm
    rw [lookupCi_filter_ne acc e.1 k hke]

theorem lookupCi_canonAux (l acc : List ((String × String) × String)) (k : String × String) :
    lookupCi (l.foldl canonStep acc) k = lookupCi (acc ++ l) k := by
  induction l generalizing acc with
  | nil => simp
  | cons e t ih =>
    rw [List.foldl_cons, ih, lookupCi_append, lookupCi_canonStep,
        show acc ++ e :: t = acc ++ ([e] ++ t) from by simp,
        lookupCi_append, lookupCi_append, optRight_assoc]

theorem CIDict.get_canon (d : CIDict) (k : String × String) :
    lookupCi d.canon k = d.get k := by
  unfold CIDict.canon CIDict.get
  rw [lookupCi_canonAux]
  rfl

theorem canon_norms_nodup (d : CIDict) :
    (d.canon.map (fun e => ciNorm e.1)).Nodup := by
  unfold CIDict.canon
  have main : ∀ (l acc : List ((String × String) × String)),
      (acc.map (fun e => ciNorm e.1)).Nodup →
      ((l.foldl canonStep acc).map (fun e => ciNorm e.1)).Nodup := by
    intro l
    induction l with
    | nil => intro acc h; exact h
    | cons e t ih =>
      intro acc h
      refine ih (canonStep acc e) ?_
      unfold canonStep
      rw [List.map_append]
      refine List.Nodup.append ?_ (by simp) ?_
      · exact List.Nodup.sublist (List.Sublist.map _ (List.filter_sublist acc)) h
      · intro x hx hx2
        simp only [List.map_cons, List.map_nil, List.mem_singleton] at hx2
        subst hx2
        simp only [List.mem_map] at hx
        obtain ⟨y, hy, hxy⟩ := hx
        have hp := List.of_mem_filter hy
        simp only [Bool.not_eq_true', decide_eq_false_iff_not] at hp
        exact hp hxy
  exact main d.entries [] (by simp)

theorem mem_ci_nodup_lookup (l : List ((String × String) × String))
    (e : (String × String) × String) (hn : (l.map (fun x => ciNorm x.1)).Nodup)
    (he : e ∈ l) : lookupCi l e.1 = some e.2 := by
  induction l with
  | nil => cases he
  | cons f t ih =>
    rw [lookupCi_cons]
    rcases List.mem_cons.mp he with rfl | he'
    · have hn' : ciNorm e.1 ∉ t.map (fun x => ciNorm x.1) := by
        rw [List.map_cons, List.nodup_cons] at hn
        exact hn.1
      rw [lookupCi_eq_none_of_not_mem t e.1 hn', lookupCi_single, if_pos rfl]
      rfl
    · rw [ih (by rw [List.map_cons, List.nodup_cons] at hn; exact hn.2) he']
      rfl

theorem mem_canon_get (d : CIDict) (e : (String × String) × String)
    (he : e ∈ d.canon) : d.get e.1 = some e.2 := by
  rw [← CIDict.get_canon]
  exact mem_ci_nodup_lookup d.canon e (canon_norms_nodup d) he

/-! ## Lemmas about the lexicographic sort used for stacking -/

theorem charToNat_inj {a b : Char} (h : a.toNat = b.toNat) : a = b := by
  have h2 := congrArg Char.ofNat h
  rwa [Char.ofNat_toNat, Char.ofNat_toNat] at h2

theorem lexLt_asymm : ∀ (x y : List Char), lexLt x y = true → lexLt y x = false
  | [], [], h => by simp [lexLt] at h
  | [], _ :: _, _ => rfl
  | _ :: _, [], h => by simp [lexLt] at h
  | a :: as, b :: bs, h => by
    simp only [lexLt] at h ⊢
    by_cases h1 : a.toNat < b.toNat
    · rw [if_neg (by omega), if_pos h1]
    · rw [if_neg h1] at h
      by_cases h2 : b.toNat < a.toNat
      · rw [if_pos h2] at h
        exact absurd h (by simp)
      · rw [if_neg h2] at h
        rw [if_neg h2, if_neg h1]
        exact lexLt_asymm as bs h

theorem lexLt_eq_of_not : ∀ (x y : List Char), lexLt x y = false → lexLt y x = false → x = y
  | [], [], _, _ => rfl
  | [], _ :: _, h1, _ => by simp [lexLt] at h1
  | _ :: _, [], _, h2 => by simp [lexLt] at h2
  | a :: as, b :: bs, h1, h2 => by
    simp only [lexLt] at h1 h2
    by_cases hab : a.toNat < b.toNat
    · rw [if_pos hab] at h1
      exact absurd h1 (by simp)
    · by_cases hba : b.toNat < a.toNat
      · rw [if_pos hba] at h2
        exact absurd h2 (by simp)
      · rw [if_neg hab, if_neg hba] at h1
        rw [if_neg hba, if_neg hab] at h2
        have hc : a = b := charToNat_inj (by omega)
        rw [hc, lexLt_eq_of_not as bs h1 h2]

theorem lexLt_trans : ∀ (x y z : List Char),
    lexLt x y = true → lexLt y z = true → lexLt x z = true
  | [], y, z, h1, h2 => by
    cases z with
    | nil =>
      cases y with
      | nil => exact h2
      | cons b bs => simp [lexLt] at h2
    | cons c cs => rfl
  | _ :: _, [], _, h1, _ => by simp [lexLt] at h1
  | _ :: _, _ :: _, [], _, h2 => by simp [lexLt] at h2
  | a :: as, b :: bs, c :: cs, h1, h2 => by
    simp only [lexLt] at h1 h2 ⊢
    by_cases hab : a.toNat < b.toNat
    · by_cases hbc : b.toNat < c.toNat
      · rw [if_pos (by omega)]
      · rw [if_neg hbc] at h2
        by_cases hcb : c.toNat < b.toNat
        · rw [if_pos hcb] at h2
          exact absurd h2 (by simp)
        · rw [if_pos (by omega)]
    · rw [if_neg hab] at h1
      by_cases hba : b.toNat < a.toNat
      · rw [if_pos hba] at h1
        exact absurd h1 (by simp)
      · rw [if_neg hba] at h1
        by_cases hbc : b.toNat < c.toNat
        · rw [if_pos (by omega)]
        · rw [if_neg hbc] at h2
          by_cases hcb : c.toNat < b.toNat
          · rw [if_pos hcb] at h2
            exact absurd h2 (by simp)
          · rw [if_neg hcb] at h2
            rw [if_neg (by omega), if_neg (by omega)]
            exact lexLt_trans as bs cs h1 h2

theorem strLeB_total (a b : String) : strLeB a b = true ∨ strLeB b a = true := by
  unfold strLeB
  by_cases h : lexLt b.data a.data = true
  · right
    rw [lexLt_asymm _ _ h]
    rfl
  · left
    rw [Bool.not_eq_true] at h
    rw [h]
    rfl

theorem strLeB_antisymm {a b : String} (h1 : strLeB a b = true) (h2 : strLeB b a = true) :
    a = b := by
  unfold strLeB at h1 h2
  rw [Bool.not_eq_true'] at h1 h2
  have hd : a.data = b.data := lexLt_eq_of_not a.data b.data h2 h1
  cases a
  cases b
  exact congrArg String.mk hd


theorem strLeB_trans {a b c : String} (h1 : strLeB a b = true) (h2 : strLeB b c = true) :
    strLeB a c = true := by
  unfold strLeB at h1 h2 ⊢
  rw [Bool.not_eq_true'] at h1 h2 ⊢
  by_cases hca : lexLt c.data a.data = true
  · by_cases hbc : lexLt b.data c.data = true
    · exact absurd (lexLt_trans _ _ _ hbc hca) (by rw [h1]; simp)
    · rw [Bool.not_eq_true] at hbc
      have hbceq : b.data = c.data := lexLt_eq_of_not b.data c.data hbc h2
      rw [← hbceq] at hca
      exact absurd hca (by rw [h1]; simp)
  · rwa [Bool.not_eq_true] at hca

theorem insSorted_perm (x : String) (l : List String) : List.Perm (insSorted x l) (x :: l) := by
  induction l with
  | nil => exact List.Perm.refl _
  | cons y ys ih =>
    unfold insSorted
    by_cases h : strLeB x y = true
    · rw [if_pos h]
    · rw [if_neg h]
      exact (List.Perm.cons y ih).trans (List.Perm.swap x y ys)

theorem insSorted_sorted {x : String} {l : List String}
    (h : List.Sorted (fun a b => strLeB a b = true) l) :
    List.Sorted (fun a b => strLeB a b = true) (insSorted x l) := by
  induction l with
  | nil => simp [insSorted]
  | cons y ys ih =>
    rw [List.sorted_cons] at h
    unfold insSorted
    by_cases hxy : strLeB x y = true
    · rw [if_pos hxy, List.sorted_cons]
      refine ⟨?_, by rw [List.sorted_cons]; exact h⟩
      intro b hb
      rcases List.mem_cons.mp hb with rfl | hb'
      · exact hxy
      · exact strLeB_trans hxy (h.1 b hb')
    · rw [if_neg hxy, List.sorted_cons]
      refine ⟨?_, ih h.2⟩
      intro b hb
      have hmem := (insSorted_perm x ys).mem_iff.mp hb
      rcases List.mem_cons.mp hmem with hbx | hb'
      · rw [hbx]
        rcases strLeB_total x y with ht | ht
        · exact absurd ht hxy
        · exact ht
      · exact h.1 b hb'

theorem sortStr_perm (l : List String) : List.Perm (sortStr l) l := by
  induction l with
  | nil => exact List.Perm.refl _
  | cons x xs ih =>
    unfold sortStr
    rw [List.foldr_cons]
    exact (insSorted_perm x _).trans (List.Perm.cons x ih)

theorem sortStr_sorted (l : List String) :
    List.Sorted (fun a b => strLeB a b = true) (sortStr l) := by
  induction l with
  | nil => simp [sortStr]
  | cons x xs ih =>
    unfold sortStr
    rw [List.foldr_cons]
    exact insSorted_sorted ih

theorem sortStr_eq_of_perm {l₁ l₂ : List String} (p : List.Perm l₁ l₂) : sortStr l₁ = sortStr l₂ := by
  haveI : IsAntisymm String (fun a b => strLeB a b = true) :=
    ⟨fun _ _ h1 h2 => strLeB_antisymm h1 h2⟩
  exact List.eq_of_perm_of_sorted
    ((sortStr_perm l₁).trans (p.trans (sortStr_perm l₂).symm))
    (sortStr_sorted l₁) (sortStr_sorted l₂)

/-! ## Lemmas about association-list lookup on dictionaries with distinct keys -/

theorem alGet_eq_none_iff {α : Type} (l : List (String × α)) (k : String) :
    alGet l k = none ↔ k ∉ l.map Prod.fst := by
  induction l with
  | nil => simp [alGet]
  | cons e t ih =>
    by_cases h : e.1 = k
    · simp [alGet, h]
    · simp only [alGet, if_neg h, List.map_cons, List.mem_cons, ih]
      constructor
      · intro hn hc
        rcases hc with hc | hc
        · exact h hc.symm
        · exact hn hc
      · intro hn
        exact fun hc => hn (Or.inr hc)

theorem mem_of_alGet_eq_some {α : Type} {l : List (String × α)} {k : String} {v : α}
    (h : alGet l k = some v) : (k, v) ∈ l := by
  induction l with
  | nil => simp [alGet] at h
  | cons e t ih =>
    by_cases hk : e.1 = k
    · rw [alGet, if_pos hk, Option.some.injEq] at h
      subst hk
      subst h
      simp
    · rw [alGet, if_neg hk] at h
      exact List.mem_cons_of_mem _ (ih h)

theorem alGet_eq_some_of_mem {α : Type} {l : List (String × α)} {k : String} {v : α}
    (hn : (l.map Prod.fst).Nodup) (hm : (k, v) ∈ l) : alGet l k = some v := by
  induction l with
  | nil => cases hm
  | cons e t ih =>
    rw [List.map_cons, List.nodup_cons] at hn
    rcases List.mem_cons.mp hm with he | hm'
    · rw [← he, alGet, if_pos rfl]
    · have hk : e.1 ≠ k := by
        intro hc
        subst hc
        exact hn.1 (List.mem_map.mpr ⟨(e.1, v), hm', rfl⟩)
      rw [alGet, if_neg hk]
      exact ih hn.2 hm'

theorem lookup_perm {α : Type} {l₁ l₂ : List (String × α)} (p : List.Perm l₁ l₂)
    (hn : (l₁.map Prod.fst).Nodup) (k : String) : alGet l₁ k = alGet l₂ k := by
  have hn₂ : (l₂.map Prod.fst).Nodup := (p.map Prod.fst).nodup_iff.mp hn
  cases h : alGet l₁ k with
  | some v =>
    exact (alGet_eq_some_of_mem hn₂ (p.subset (mem_of_alGet_eq_some h))).symm
  | none =>
    rw [alGet_eq_none_iff] at h
    symm
    rw [alGet_eq_none_iff]
    intro hc
    exact h ((p.map Prod.fst).mem_iff.mpr hc)

theorem process_configs_perm {c₁ c₂ : List (String × ConfigFile)} (p : List.Perm c₁ c₂)
    (hn : (c₁.map Prod.fst).Nodup) : process_configs c₁ = process_configs c₂ := by
  unfold process_configs
  rw [sortStr_eq_of_perm (p.map Prod.fst)]
  have hpt : ∀ k, (match alGet c₁ k with
      | some cf => configItems cf
      | none => ([] : List ((String × String) × String)))
      = (match alGet c₂ k with
      | some cf => configItems cf
      | none => []) := by
    intro k
    rw [lookup_perm p hn k]
  simp only [hpt]

/-! ## Upper-casing commutes with the flow-ID tokenization -/

theorem charOfNat_toNat {m : Nat} (h : m < 55296) : (Char.ofNat m).toNat = m := by
  rw [Char.ofNat, dif_pos (Or.inl h)]
  rfl

theorem isSep_toUpper (c : Char) : isSep c.toUpper = isSep c := by
  simp only [Char.toUpper]
  by_cases h : c.toNat ≥ 97 ∧ c.toNat ≤ 122
  · rw [if_pos h]
    have hv : (Char.ofNat (c.toNat - 32)).toNat = c.toNat - 32 := charOfNat_toNat (by omega)
    simp only [isSep, hv]
    rw [decide_eq_false (by omega : ¬(c.toNat - 32 = 32)),
        decide_eq_false (by omega : ¬(c.toNat - 32 = 46)),
        decide_eq_false (by omega : ¬(c.toNat - 32 = 95)),
        decide_eq_false (by omega : ¬(c.toNat = 32)),
        decide_eq_false (by omega : ¬(c.toNat = 46)),
        decide_eq_false (by omega : ¬(c.toNat = 95))]
  · rw [if_neg h]

theorem toUpper_underscore : Char.toUpper '_' = '_' := by decide

theorem splitSep_map_toUpper (l : List Char) :
    splitSep (l.map Char.toUpper) = (splitSep l).map (fun t => t.map Char.toUpper) := by
  induction l with
  | nil => rfl
  | cons c cs ih =>
    simp only [List.map_cons, splitSep, isSep_toUpper]
    by_cases h : isSep c = true
    · rw [if_pos h, if_pos h, ih]
      rfl
    · rw [if_neg h, if_neg h, ih]
      cases hxs : splitSep cs <;> simp [consHead]

theorem filter_nonempty_map_toUpper (xs : List (List Char)) :
    (xs.map (fun t => t.map Char.toUpper)).filter (fun t => !t.isEmpty)
      = (xs.filter (fun t => !t.isEmpty)).map (fun t => t.map Char.toUpper) := by
  induction xs with
  | nil => rfl
  | cons t ts ih =>
    cases t <;> simp [List.filter_cons, ih]

theorem joinWith_map_toUpper (xs : List (List Char)) :
    joinWith '_' (xs.map (fun t => t.map Char.toUpper))
      = (joinWith '_' xs).map Char.toUpper := by
  induction xs with
  | nil => rfl
  | cons t ts ih =>
    cases ts with
    | nil => rfl
    | cons t2 ts2 =>
      simp only [List.map_cons] at ih ⊢
      rw [show joinWith '_' ((t.map Char.toUpper) :: (t2.map Char.toUpper) :: ts2.map (fun t => t.map Char.toUpper))
            = t.map Char.toUpper ++ '_' :: joinWith '_' ((t2.map Char.toUpper) :: ts2.map (fun t => t.map Char.toUpper)) from rfl,
          show joinWith '_' (t :: t2 :: ts2) = t ++ '_' :: joinWith '_' (t2 :: ts2) from rfl,
          ih, List.map_append, List.map_cons, toUpper_underscore]

/-- Modelled from the spec: the claim's normalization recipe with upper-casing
applied LAST — delete the trailing date suffix, split on spaces, dots and
underscores, discard empty tokens, join with underscores, upper-case. -/
def normalizeSpec (l : List Char) : List Char :=
  (joinWith '_' ((splitSep (deleteSuffix l)).filter (fun t => !t.isEmpty))).map Char.toUpper

theorem normalizeSpec_eq_code (l : List Char) : normalizeSpec l = normalizeCode l := by
  unfold normalizeSpec normalizeCode
  rw [splitSep_map_toUpper, filter_nonempty_map_toUpper, joinWith_map_toUpper]

/-! ## Claims -/

/-- C4 (corrected): flow normalization equals the recipe — strip directory and
extension, delete the trailing date/version suffix, split on spaces, dots and
underscores, discard empty tokens, join with underscores, upper-case — and
`"SALES_20230501_extract.csv"` normalizes to `"SALES"`.  The claim's second
example is wrong: `posixpath.splitext` treats `".b c_d"` as the extension of
`"a.b c_d"`, so the flow ID is `"A"`, not `"A_B_C_D"`. -/
theorem claim_C4_amended :
    (∀ s : String, s.data.isEmpty = false →
      get_flow_id (some s) =
        (let norm := normalizeSpec (stripExt (afterLastSlash s.data))
         if norm.isEmpty then .error (.flowIdError (blankFlowMsg s))
         else .ok (some ⟨norm⟩))) ∧
    get_flow_id (some "SALES_20230501_extract.csv") = .ok (some "SALES") ∧
    get_flow_id (some "a.b c_d") = .ok (some "A") := by
  refine ⟨?_, rfl, rfl⟩
  intro s hs
  simp only [get_flow_id, normalizeSpec_eq_code, hs, Bool.false_eq_true, if_false]

/-- C4 counterexample: the claim states `"a.b c_d"` normalizes to
`"A_B_C_D"`, but the code strips the extension `".b c_d"` first and yields
`"A"`. -/
theorem claim_C4_counterexample :
    get_flow_id (some "a.b c_d") = .ok (some "A") ∧
    (Except.ok (some "A") : Except CMError (Option String)) ≠ .ok (some "A_B_C_D") := by
  exact ⟨rfl, by decide⟩

/-- C4 witness. -/
theorem claim_C4_witness :
    ("dir/ab_12345678.txt".data.isEmpty = false) ∧
    get_flow_id (some "dir/ab_12345678.txt") =
      (let norm := normalizeSpec (stripExt (afterLastSlash "dir/ab_12345678.txt".data))
       if norm.isEmpty then .error (.flowIdError (blankFlowMsg "dir/ab_12345678.txt"))
       else .ok (some ⟨norm⟩)) :=
  ⟨rfl, claim_C4_amended.1 "dir/ab_12345678.txt" rfl⟩

/-- C5 (confirmed): on a non-empty filename whose normalization collapses to
the blank string, `get_flow_id` RAISES the blank-flow error, whose message
contains the original filename; on a non-empty filename whose normalization
is non-blank it returns that normalization, which is a non-empty flow ID â
so whenever `get_flow_id` returns, the returned flow ID is non-empty. -/
theorem claim_C5 (s : String) (hs : s.data.isEmpty = false) :
    ((normalizeCode (stripExt (afterLastSlash s.data))).isEmpty = true →
      get_flow_id (some s) = .error (.flowIdError (blankFlowMsg s)) ∧
      List.IsInfix s.data (blankFlowMsg s).data) ∧
    ((normalizeCode (stripExt (afterLastSlash s.data))).isEmpty = false →
      get_flow_id (some s)
        = .ok (some ⟨normalizeCode (stripExt (afterLastSlash s.data))⟩) ∧
      normalizeCode (stripExt (afterLastSlash s.data)) ≠ []) ∧
    (∀ o, get_flow_id (some s) = .ok o →
      ∃ r, o = some r ∧ r.data.isEmpty = false) := by
  have hinfix : List.IsInfix s.data (blankFlowMsg s).data := by
    refine ⟨"Flow ID normalized '".data,
      "' to a blank value (''), please check filename and process for potential unexpected behavior.".data, ?_⟩
    rfl
  simp only [get_flow_id, hs, Bool.false_eq_true, if_false]
  refine ⟨?_, ?_, ?_⟩
  · intro h
    rw [if_pos h]
    exact ⟨rfl, hinfix⟩
  · intro h
    rw [if_neg (by rw [h]; exact Bool.false_ne_true)]
    exact ⟨rfl, by simpa using h⟩
  · intro o ho
    by_cases h : (normalizeCode (stripExt (afterLastSlash s.data))).isEmpty = true
    · rw [if_pos h] at ho
      simp at ho
    · rw [if_neg h] at ho
      rw [Except.ok.injEq] at ho
      refine ⟨⟨normalizeCode (stripExt (afterLastSlash s.data))⟩, ho.symm, ?_⟩
      simpa using h

/-- C5 witness: `"20230501.csv"` loses its extension, then the 8-digit-date
alternative deletes the whole remainder, so normalization collapses to blank
and `get_flow_id` raises the blank-flow error naming the filename. -/
theorem claim_C5_witness :
    ("20230501.csv".data.isEmpty = false) ∧
    ((normalizeCode (stripExt (afterLastSlash "20230501.csv".data))).isEmpty = true) ∧
    (get_flow_id (some "20230501.csv")
        = .error (.flowIdError (blankFlowMsg "20230501.csv")) ∧
      List.IsInfix "20230501.csv".data (blankFlowMsg "20230501.csv").data) := by
  refine ⟨rfl, rfl, (claim_C5 "20230501.csv" rfl).1 rfl⟩

/-- C9 (code bug): the `files` property iterates the Python dict
`self._configfiles`, which yields its KEYS — namespace strings — and then
reads `.path` on them, so whenever at least one namespace was loaded the
property raises `AttributeError` instead of returning the de-duplicated
path list its docstring and the spec promise; with no loaded namespaces it
returns the empty list.  `filesIntended` is what the spec describes. -/
theorem claim_C9_bug (env : Env) (confs : CIDict) (n : String) (c : ConfigFile)
    (rest : List (String × ConfigFile)) :
    filesProp ⟨env, (n, c) :: rest, confs⟩
      = .error ("AttributeError: string namespace key has no path attribute: " ++ n) ∧
    filesProp ⟨env, [], confs⟩ = .ok [] ∧
    filesIntended ⟨env, (n, c) :: rest, confs⟩
      = (c.path :: (rest.map Prod.snd).map ConfigFile.path).dedup := by
  exact ⟨rfl, rfl, rfl⟩

/-- C10 (confirmed): construction with no required namespaces and neither a
flow nor a filename succeeds — `get_flow_id` maps an absent or empty filename
to `none` instead of raising — and the resulting merged configuration is
empty: length 0 and no `(section, key)` pairs. -/
theorem claim_C10 (env : Env) :
    mkConfigManager env [] none none = .ok ⟨env, [], ⟨[]⟩⟩ ∧
    cmLen ⟨env, [], ⟨[]⟩⟩ = 0 ∧
    cmIter ⟨env, [], ⟨[]⟩⟩ = [] ∧
    get_flow_id none = .ok none ∧
    get_flow_id (some "") = .ok none := by
  exact ⟨rfl, rfl, rfl, rfl, rfl⟩

/-! ## Namespace loader lemmas and claims C6, C7 -/

theorem alGet_dictSet_self {α : Type} (m : List (String × α)) (k : String) (v : α) :
    alGet (dictSet m k v) k = some v := by
  induction m with
  | nil => simp [dictSet, alGet]
  | cons e t ih =>
    by_cases h : e.1 = k
    · simp [dictSet, h, alGet]
    · simp only [dictSet]
      rw [if_neg h, alGet, if_neg h]
      exact ih

theorem alGet_dictSet_ne {α : Type} (m : List (String × α)) (k k' : String) (v : α)
    (h : k ≠ k') : alGet (dictSet m k v) k' = alGet m k' := by
  induction m with
  | nil => simp [dictSet, alGet, h]
  | cons e t ih =>
    by_cases he : e.1 = k
    · simp only [dictSet, if_pos he, alGet]
      rw [if_neg h, if_neg (he ▸ h)]
    · simp only [dictSet, if_neg he, alGet]
      by_cases hq : e.1 = k'
      · rw [if_pos hq, if_pos hq]
      · rw [if_neg hq, if_neg hq]
        exact ih

theorem get_configsAux_required_error (env : Env) (post : List String) (ns : String)
    (hns : env.parse (make_conf_path (upperStr ns)) = none) :
    ∀ (pre : List String) (acc : List (String × ConfigFile)),
      (∀ m ∈ pre, env.parse (make_conf_path (upperStr m)) ≠ none) →
      get_configsAux env true (pre ++ ns :: post) acc
        = .error (.configNotFound (cnfMsg (upperStr ns) (make_conf_path (upperStr ns)))) := by
  intro pre
  induction pre with
  | nil =>
    intro acc _
    simp only [List.nil_append, get_configsAux, hns]
    rfl
  | cons p ps ih =>
    intro acc hpre
    simp only [List.cons_append, get_configsAux]
    cases hp : env.parse (make_conf_path (upperStr p)) with
    | none => exact absurd hp (hpre p (by simp))
    | some cf =>
      exact ih (dictSet acc (upperStr p) cf) (fun m hm => hpre m (by simp [hm]))

theorem get_configsAux_optional_ok (env : Env) :
    ∀ (nss : List String) (acc : List (String × ConfigFile)),
      ∃ m, get_configsAux env false nss acc = .ok m ∧
        ∀ N : String,
          alGet m N =
            (if N ∈ nss.map upperStr ∧ env.parse (make_conf_path N) ≠ none
             then env.parse (make_conf_path N)
             else alGet acc N) := by
  intro nss
  induction nss with
  | nil =>
    intro acc
    refine ⟨acc, rfl, ?_⟩
    intro N
    rw [if_neg (by simp)]
  | cons ns rest ih =>
    intro acc
    simp only [get_configsAux]
    cases hp : env.parse (make_conf_path (upperStr ns)) with
    | some cf =>
      obtain ⟨m, hm, hget⟩ := ih (dictSet acc (upperStr ns) cf)
      refine ⟨m, hm, ?_⟩
      intro N
      rw [hget N]
      by_cases hr : N ∈ rest.map upperStr ∧ env.parse (make_conf_path N) ≠ none
      · rw [if_pos hr, if_pos ⟨by simp [hr.1], hr.2⟩]
      · rw [if_neg hr]
        by_cases hN : N = upperStr ns
        · subst hN
          rw [if_pos ⟨by simp, by rw [hp]; simp⟩, alGet_dictSet_self, hp]
        · rw [alGet_dictSet_ne _ _ _ _ (fun hc => hN hc.symm)]
          rw [if_neg ?_]
          intro hc
          rcases hc with ⟨hmem, hpar⟩
          rcases (by simpa using hmem : N = upperStr ns ∨ ∃ a ∈ rest, upperStr a = N) with
            h | ⟨x, hx', hxu⟩
          · exact hN h
          · exact hr ⟨List.mem_map.mpr ⟨x, hx', hxu⟩, hpar⟩
    | none =>
      obtain ⟨m, hm, hget⟩ := ih acc
      refine ⟨m, hm, ?_⟩
      intro N
      rw [hget N]
      by_cases hr : N ∈ rest.map upperStr ∧ env.parse (make_conf_path N) ≠ none
      · rw [if_pos hr, if_pos ⟨by simp [hr.1], hr.2⟩]
      · rw [if_neg hr, if_neg ?_]
        intro hc
        rcases hc with ⟨hmem, hpar⟩
        rcases (by simpa using hmem : N = upperStr ns ∨ ∃ a ∈ rest, upperStr a = N) with
          h | ⟨x, hx', hxu⟩
        · rw [h] at hpar
          exact hpar hp
        · exact hr ⟨List.mem_map.mpr ⟨x, hx', hxu⟩, hpar⟩

/-- C6 (confirmed): loading with `required=true` raises `ConfigNotFound`
naming the (first) failing namespace and its path as soon as one fails, and
such an error aborts `ConfigManager` construction entirely; loading with
`required=false` always returns, and its mapping holds exactly the
upper-cased namespaces whose file parses, each bound to its parse result. -/
theorem claim_C6 (env : Env) :
    (∀ pre ns post, (∀ m ∈ pre, env.parse (make_conf_path (upperStr m)) ≠ none) →
      env.parse (make_conf_path (upperStr ns)) = none →
      get_configs env (pre ++ ns :: post) true
        = .error (.configNotFound (cnfMsg (upperStr ns) (make_conf_path (upperStr ns))))) ∧
    (∀ nss, ∃ m, get_configs env nss false = .ok m ∧
      (∀ N cf, alGet m N = some cf ↔
        (N ∈ nss.map upperStr ∧ env.parse (make_conf_path N) = some cf))) ∧
    (∀ nss flow fn e, get_configs env nss true = .error e →
      mkConfigManager env nss flow fn = .error e) := by
  refine ⟨?_, ?_, ?_⟩
  · intro pre ns post hpre hns
    exact get_configsAux_required_error env post ns hns pre [] hpre
  · intro nss
    obtain ⟨m, hm, hget⟩ := get_configsAux_optional_ok env nss []
    refine ⟨m, hm, ?_⟩
    intro N cf
    rw [hget N]
    by_cases hc : N ∈ nss.map upperStr ∧ env.parse (make_conf_path N) ≠ none
    · rw [if_pos hc]
      constructor
      · intro hp
        exact ⟨hc.1, hp⟩
      · intro hp
        exact hp.2
    · rw [if_neg hc]
      simp only [alGet]
      constructor
      · intro hp
        cases hp
      · intro hp
        exact absurd ⟨hp.1, by rw [hp.2]; simp⟩ hc
  · intro nss flow fn e he
    unfold mkConfigManager
    rw [he]
    rfl

/-- C6 witness. -/
theorem claim_C6_witness :
    (∀ m ∈ (["ns1"] : List String),
        Env.parse ⟨[(make_conf_path "NS1", some ⟨make_conf_path "NS1", .full, [], [], []⟩)]⟩
          (make_conf_path (upperStr m)) ≠ none) ∧
    Env.parse ⟨[(make_conf_path "NS1", some ⟨make_conf_path "NS1", .full, [], [], []⟩)]⟩
      (make_conf_path (upperStr "missing")) = none ∧
    get_configs ⟨[(make_conf_path "NS1", some ⟨make_conf_path "NS1", .full, [], [], []⟩)]⟩
      (["ns1"] ++ "missing" :: []) true
      = .error (.configNotFound
          (cnfMsg (upperStr "missing") (make_conf_path (upperStr "missing")))) := by
  refine ⟨?_, by decide, ?_⟩
  · intro m hm
    rcases List.mem_singleton.mp hm with rfl
    decide
  · refine (claim_C6 _).1 ["ns1"] "missing" [] ?_ (by decide)
    intro m hm
    rcases List.mem_singleton.mp hm with rfl
    decide

/-- C7 (confirmed): with a flow, the flattened flow mapping is layered on top
of the required-namespace stack with last-write-wins — every `(section, key)`
in the flow mapping is served from it, every other key from the stack. -/
theorem claim_C7 (env : Env) (nss : List String) (flow : String)
    (cfgs : List (String × ConfigFile)) (fc : ConfigFile)
    (hflow : flow.data.isEmpty = false)
    (hcfg : get_configs env nss true = .ok cfgs)
    (hfc : get_config_by_flow env flow = .ok fc) :
    mkConfigManager env nss (some flow) none
      = .ok ⟨env, cfgs, (process_configs cfgs).updateWith (process_genconf fc flow)⟩ ∧
    (∀ sk v, (process_genconf fc flow).get sk = some v →
      ((process_configs cfgs).updateWith (process_genconf fc flow)).get sk = some v) ∧
    (∀ sk, (process_genconf fc flow).get sk = none →
      ((process_configs cfgs).updateWith (process_genconf fc flow)).get sk
        = (process_configs cfgs).get sk) := by
  refine ⟨?_, ?_, ?_⟩
  · unfold mkConfigManager
    rw [hcfg]
    simp only [Bind.bind, Except.bind, Pure.pure, Except.pure, hflow, Bool.false_eq_true,
      if_false, hfc]
  · intro sk v hv
    rw [CIDict.get_updateWith, hv]
    rfl
  · intro sk hv
    rw [CIDict.get_updateWith, hv]
    rfl

/-- Concrete environment for the C7 witness: one required namespace file and
one dedicated flow file. -/
def envC7 : Env :=
  ⟨[(make_conf_path "NS1",
     some ⟨make_conf_path "NS1", .full, ["sec"], [("sec", [("k", "base")])], []⟩),
    (make_conf_path "CM_FSD_FLOW_MYFLOW",
     some ⟨make_conf_path "CM_FSD_FLOW_MYFLOW", .full, ["sec"],
       [("sec", [("k", "flow")])], []⟩)]⟩

/-- The dedicated flow source of `envC7`. -/
def dedC7 : ConfigFile :=
  ⟨make_conf_path "CM_FSD_FLOW_MYFLOW", .full, ["sec"], [("sec", [("k", "flow")])], []⟩

/-- The loaded required namespaces of `envC7`. -/
def cfgsC7 : List (String × ConfigFile) :=
  [("NS1", ⟨make_conf_path "NS1", .full, ["sec"], [("sec", [("k", "base")])], []⟩)]

set_option maxRecDepth 8000 in
/-- C7 witness. -/
theorem claim_C7_witness :
    mkConfigManager envC7 ["ns1"] (some "MYFLOW") none
      = .ok ⟨envC7, cfgsC7,
          (process_configs cfgsC7).updateWith (process_genconf dedC7 "MYFLOW")⟩ :=
  (claim_C7 envC7 ["ns1"] "MYFLOW" cfgsC7 dedC7 rfl (by decide) (by decide)).1

/-- C2 (confirmed): stacking merges the namespaces in lexicographic order of
their (upper-cased, as produced by the loader) names, independent of the
order they were passed in; on a two-namespace stack with `A < B` the
later-sorting `B` contributes its writes after `A`, so `B` wins every
`(section, key)` collision; a `SIMPLE`-style source's entries sit under the
empty-string section and a `FULL`-style source's entries under their own raw
`(section, key)` pairs; stacking is a total function, so a collision never
raises. -/
theorem claim_C2 :
    (∀ c₁ c₂ : List (String × ConfigFile), List.Perm c₁ c₂ →
      (c₁.map Prod.fst).Nodup → process_configs c₁ = process_configs c₂) ∧
    (∀ A B fa fb, strLeB A B = true → A ≠ B →
      process_configs [(A, fa), (B, fb)] = ⟨configItems fa ++ configItems fb⟩ ∧
      (∀ sk, (process_configs [(A, fa), (B, fb)]).get sk
        = optRight (lookupCi (configItems fa) sk) (lookupCi (configItems fb) sk))) ∧
    (∀ cf, cf.parsestyle = .simple →
      configItems cf = cf.simpleData.map (fun kv => (("", kv.1), kv.2))) ∧
    (∀ cf, cf.parsestyle = .full →
      configItems cf
        = (cf.sectionData.map (fun hs => hs.2.map (fun kv => ((hs.1, kv.1), kv.2)))).flatten) := by
  refine ⟨fun c₁ c₂ p hn => process_configs_perm p hn, ?_, ?_, ?_⟩
  · intro A B fa fb hle hne
    have hstruct : process_configs [(A, fa), (B, fb)] = ⟨configItems fa ++ configItems fb⟩ := by
      unfold process_configs sortStr
      simp only [List.map_cons, List.map_nil, List.foldr_cons, List.foldr_nil]
      rw [show insSorted B [] = [B] from rfl]
      unfold insSorted
      rw [if_pos hle]
      simp [alGet, hne]
    refine ⟨hstruct, ?_⟩
    intro sk
    rw [hstruct]
    exact lookupCi_append _ _ sk
  · intro cf h
    unfold configItems
    rw [h]
  · intro cf h
    unfold configItems
    rw [h]

/-- C2 witness. -/
theorem claim_C2_witness :
    (List.Perm
      ([("B", (⟨"pb", .simple, [], [], [("k", "vb")]⟩ : ConfigFile)),
        ("A", (⟨"pa", .simple, [], [], [("k", "va")]⟩ : ConfigFile))])
      ([("A", (⟨"pa", .simple, [], [], [("k", "va")]⟩ : ConfigFile)),
        ("B", (⟨"pb", .simple, [], [], [("k", "vb")]⟩ : ConfigFile))])) ∧
    process_configs
        [("B", (⟨"pb", .simple, [], [], [("k", "vb")]⟩ : ConfigFile)),
         ("A", (⟨"pa", .simple, [], [], [("k", "va")]⟩ : ConfigFile))]
      = process_configs
        [("A", (⟨"pa", .simple, [], [], [("k", "va")]⟩ : ConfigFile)),
         ("B", (⟨"pb", .simple, [], [], [("k", "vb")]⟩ : ConfigFile))] ∧
    (process_configs
        [("A", (⟨"pa", .simple, [], [], [("k", "va")]⟩ : ConfigFile)),
         ("B", (⟨"pb", .simple, [], [], [("k", "vb")]⟩ : ConfigFile))]).get ("", "k")
      = some "vb" := by
  have hperm : List.Perm
      ([("B", (⟨"pb", .simple, [], [], [("k", "vb")]⟩ : ConfigFile)),
        ("A", (⟨"pa", .simple, [], [], [("k", "va")]⟩ : ConfigFile))])
      ([("A", (⟨"pa", .simple, [], [], [("k", "va")]⟩ : ConfigFile)),
        ("B", (⟨"pb", .simple, [], [], [("k", "vb")]⟩ : ConfigFile))]) :=
    List.Perm.swap _ _ _
  refine ⟨hperm, claim_C2.1 _ _ hperm (by decide), ?_⟩
  have h2 := (claim_C2.2.1 "A" "B"
      (⟨"pa", .simple, [], [], [("k", "va")]⟩ : ConfigFile)
      (⟨"pb", .simple, [], [], [("k", "vb")]⟩ : ConfigFile)
      (by decide) (by decide)).2 ("", "k")
  rw [h2]
  decide

/-! ## GenConf flattener lemmas and claim C3 -/

/-- A header is relevant to a flow if it is unqualified or its first `::`
qualifier equals the (lowered) flow ID; `process_genconf` adds nothing to its
header map for any other header. -/
def hdrRelevant (flowLower : String) (fk : String) : Bool :=
  match (splitColons fk.data).drop 1 with
  | [] => true
  | n :: _ => lowerStr ⟨n⟩ = flowLower

theorem headerStep_irrelevant {flowLower fk : String}
    (h : hdrRelevant flowLower fk = false) (m : List (String × List String)) :
    headerStep flowLower m fk = m := by
  unfold hdrRelevant at h
  unfold headerStep
  dsimp only
  generalize hsp : (splitColons fk.data).drop 1 = ns at h ⊢
  cases ns with
  | nil => simp at h
  | cons n rest =>
    simp only [decide_eq_false_iff_not] at h
    exact if_neg h

theorem foldl_headerStep_filter (flowLower : String) (hs : List String) :
    ∀ m, (hs.filter (hdrRelevant flowLower)).foldl (headerStep flowLower) m
      = hs.foldl (headerStep flowLower) m := by
  induction hs with
  | nil => intro m; rfl
  | cons fk t ih =>
    intro m
    by_cases hr : hdrRelevant flowLower fk = true
    · rw [List.filter_cons, if_pos (by simp [hr]), List.foldl_cons, List.foldl_cons, ih]
    · rw [List.filter_cons, if_neg (by simpa using hr), List.foldl_cons,
        headerStep_irrelevant (by simpa using hr), ih]

set_option maxRecDepth 8000 in
/-- C3 (confirmed): flattening splits each header on `::`; headers qualified
for a different flow contribute nothing (dropping them from the file changes
nothing); for a source with base section `x` and flow-qualified section
`x::myflow`, flattening for a flow matching `myflow` case-insensitively
yields the base fields with the qualified fields written after them (so the
flow-qualified value wins per key), flattening for any other flow yields the
base fields only, and the result is keyed by the bare section name with no
`::` qualifier; on the claim's example (base `x {y=1}`, override
`x::myflow {y=2, z=3}`) flattening for `MYFLOW` yields `x.y=2, x.z=3` and
flattening for another flow yields `x.y=1` only. -/
theorem claim_C3 :
    (∀ (cf : ConfigFile) (flow_id : String),
      process_genconf
          ⟨cf.path, cf.parsestyle, cf.headers.filter (hdrRelevant (lowerStr flow_id)),
           cf.sectionData, cf.simpleData⟩ flow_id
        = process_genconf cf flow_id) ∧
    (∀ (p : String) (base ov : List (String × String)) (flow : String),
      lowerStr "myflow" = lowerStr flow →
      process_genconf ⟨p, .full, ["x", "x::myflow"],
          [("x", base), ("x::myflow", ov)], []⟩ flow
        = ⟨(base ++ ov).map (fun kv => (("x", kv.1), kv.2))⟩ ∧
      (∀ sk, (process_genconf ⟨p, .full, ["x", "x::myflow"],
          [("x", base), ("x::myflow", ov)], []⟩ flow).get sk
        = optRight (lookupCi (base.map (fun kv => (("x", kv.1), kv.2))) sk)
            (lookupCi (ov.map (fun kv => (("x", kv.1), kv.2))) sk))) ∧
    (∀ (p : String) (base ov : List (String × String)) (flow : String),
      ¬(lowerStr "myflow" = lowerStr flow) →
      process_genconf ⟨p, .full, ["x", "x::myflow"],
          [("x", base), ("x::myflow", ov)], []⟩ flow
        = ⟨base.map (fun kv => (("x", kv.1), kv.2))⟩) ∧
    ((process_genconf ⟨"g", .full, ["x", "x::myflow"],
        [("x", [("y", "1")]), ("x::myflow", [("y", "2"), ("z", "3")])], []⟩
        "MYFLOW").get ("x", "y") = some "2" ∧
     (process_genconf ⟨"g", .full, ["x", "x::myflow"],
        [("x", [("y", "1")]), ("x::myflow", [("y", "2"), ("z", "3")])], []⟩
        "MYFLOW").get ("x", "z") = some "3" ∧
     (process_genconf ⟨"g", .full, ["x", "x::myflow"],
        [("x", [("y", "1")]), ("x::myflow", [("y", "2"), ("z", "3")])], []⟩
        "MYFLOW").keys = [("x", "y"), ("x", "z")] ∧
     (process_genconf ⟨"g", .full, ["x", "x::myflow"],
        [("x", [("y", "1")]), ("x::myflow", [("y", "2"), ("z", "3")])], []⟩
        "OTHER").get ("x", "y") = some "1" ∧
     (process_genconf ⟨"g", .full, ["x", "x::myflow"],
        [("x", [("y", "1")]), ("x::myflow", [("y", "2"), ("z", "3")])], []⟩
        "OTHER").get ("x", "z") = none) := by
  have hstep1 : ∀ (fl : String) (m : List (String × List String)),
      headerStep fl m "x" = alAddNs m "x" "" := fun fl m => rfl
  have hstep2pos : ∀ (fl : String) (m : List (String × List String)),
      lowerStr "myflow" = fl →
      headerStep fl m "x::myflow" = alAddNs m "x" "myflow" := by
    intro fl m h
    show (if lowerStr ⟨"myflow".data⟩ = fl
          then alAddNs m ⟨"x".data⟩ ⟨"myflow".data⟩ else m)
        = alAddNs m "x" "myflow"
    rw [if_pos h]
  have hstep2neg : ∀ (fl : String) (m : List (String × List String)),
      ¬(lowerStr "myflow" = fl) →
      headerStep fl m "x::myflow" = m := by
    intro fl m h
    show (if lowerStr ⟨"myflow".data⟩ = fl
          then alAddNs m ⟨"x".data⟩ ⟨"myflow".data⟩ else m) = m
    rw [if_neg h]
  refine ⟨?_, ?_, ?_, by decide, by decide, by decide, by decide, by decide⟩
  · intro cf flow_id
    unfold process_genconf
    dsimp only
    rw [foldl_headerStep_filter]
    rfl
  · intro p base ov flow hm
    have hmain : process_genconf ⟨p, .full, ["x", "x::myflow"],
        [("x", base), ("x::myflow", ov)], []⟩ flow
        = ⟨(base ++ ov).map (fun kv => (("x", kv.1), kv.2))⟩ := by
      unfold process_genconf
      dsimp only
      rw [List.foldl_cons, List.foldl_cons, List.foldl_nil, hstep1,
        hstep2pos (lowerStr flow) _ hm]
      show (⟨((base ++ ov).map (fun kv => (("x", kv.1), kv.2))) ++ []⟩ : CIDict)
        = ⟨(base ++ ov).map (fun kv => (("x", kv.1), kv.2))⟩
      rw [List.append_nil]
    refine ⟨hmain, ?_⟩
    intro sk
    rw [hmain]
    show lookupCi ((base ++ ov).map (fun kv => (("x", kv.1), kv.2))) sk = _
    rw [List.map_append, lookupCi_append]
  · intro p base ov flow hm
    unfold process_genconf
    dsimp only
    rw [List.foldl_cons, List.foldl_cons, List.foldl_nil, hstep1,
      hstep2neg (lowerStr flow) _ hm]
    show (⟨(base.map (fun kv => (("x", kv.1), kv.2))) ++ []⟩ : CIDict)
      = ⟨base.map (fun kv => (("x", kv.1), kv.2))⟩
    rw [List.append_nil]

/-- C3 witness. -/
theorem claim_C3_witness :
    (lowerStr "myflow" = lowerStr "MyFlow") ∧
    process_genconf ⟨"g", .full, ["x", "x::myflow"],
        [("x", [("y", "1")]), ("x::myflow", [("z", "3")])], []⟩ "MyFlow"
      = ⟨([("y", "1")] ++ [("z", "3")]).map (fun kv => (("x", kv.1), kv.2))⟩ ∧
    ¬(lowerStr "myflow" = lowerStr "ZFLOW") ∧
    process_genconf ⟨"g", .full, ["x", "x::myflow"],
        [("x", [("y", "1")]), ("x::myflow", [("z", "3")])], []⟩ "ZFLOW"
      = ⟨[("y", "1")].map (fun kv => (("x", kv.1), kv.2))⟩ := by
  refine ⟨by decide, ?_, by decide, ?_⟩
  · exact (claim_C3.2.1 "g" [("y", "1")] [("z", "3")] "MyFlow" (by decide)).1
  · exact claim_C3.2.2.1 "g" [("y", "1")] [("z", "3")] "ZFLOW" (by decide)

/-! ## Claim C8: the read contract of `__getitem__` -/

/-- Characterization of a successful single-string lookup. -/
theorem cmGetSection_eq_ok_iff (cm : ConfigManager) (q : String) (l : List (String × String)) :
    cmGetSection cm q = .ok l ↔
      (cm.confs.keys.filterMap (fun vw =>
        if vw.1 = lowerStr q then (cm.confs.get vw).map (fun x => (vw.2, x)) else none)) = l
      ∧ l ≠ [] := by
  simp only [cmGetSection]
  by_cases he : (cm.confs.keys.filterMap (fun vw =>
      if vw.1 = lowerStr q then (cm.confs.get vw).map (fun x => (vw.2, x)) else none)).isEmpty
      = true
  · rw [if_pos he]
    constructor
    · intro hc
      exact absurd hc (by simp)
    · rintro ⟨rfl, hne⟩
      exact absurd (List.isEmpty_iff.mp he) hne
  · rw [if_neg he]
    constructor
    · intro hc
      rw [Except.ok.injEq] at hc
      refine ⟨hc, ?_⟩
      rw [← hc]
      intro hnil
      exact he (by rw [hnil]; rfl)
    · rintro ⟨rfl, _⟩
      rfl

/-- C8 (corrected): pair lookup is fully case-insensitive in both components,
but a single-string section lookup compares the LOWERED query against the
STORED section casing (`v == key.lower()` over `iterkeys`), so it is
insensitive to the query's casing yet only finds sections whose retained
casing equals the lowered query; a stored section containing an upper-case
letter is reachable by pair lookup but never by single-string lookup. -/
theorem claim_C8_amended (cm : ConfigManager) (q : String) :
    (∀ q' l, lowerStr q = lowerStr q' →
      (cmGetSection cm q = .ok l ↔ cmGetSection cm q' = .ok l)) ∧
    ((∃ vw, vw ∈ cm.confs.keys ∧ vw.1 = lowerStr q) →
      ∃ l, cmGetSection cm q = .ok l ∧ l ≠ []) ∧
    (¬(∃ vw, vw ∈ cm.confs.keys ∧ vw.1 = lowerStr q) →
      cmGetSection cm q = .error (keyNotPresentMsg q)) ∧
    (∀ s k s' k', ciNorm (s, k) = ciNorm (s', k') →
      cmGetPair cm s k = cmGetPair cm s' k') ∧
    (∀ s k v, cm.confs.get (s, k) = some v ↔ cmGetPair cm s k = .ok v) ∧
    (∀ s k, cm.confs.get (s, k) = none ↔ cmGetPair cm s k = .error "KeyError") := by
  refine ⟨?_, ?_, ?_, ?_, ?_, ?_⟩
  · intro q' l h
    rw [cmGetSection_eq_ok_iff, cmGetSection_eq_ok_iff, h]
  · rintro ⟨vw, hmem, hq⟩
    obtain ⟨e, he, hevw⟩ := List.mem_map.mp hmem
    have hget : cm.confs.get vw = some e.2 := by
      rw [← hevw]
      exact mem_canon_get cm.confs e he
    have hin : (vw.2, e.2) ∈ cm.confs.keys.filterMap (fun vw =>
        if vw.1 = lowerStr q then (cm.confs.get vw).map (fun x => (vw.2, x)) else none) :=
      List.mem_filterMap.mpr ⟨vw, hmem, by rw [if_pos hq, hget]; rfl⟩
    exact ⟨_, (cmGetSection_eq_ok_iff cm q _).mpr ⟨rfl, List.ne_nil_of_mem hin⟩,
      List.ne_nil_of_mem hin⟩
  · intro hno
    have hempty : cm.confs.keys.filterMap (fun vw =>
        if vw.1 = lowerStr q then (cm.confs.get vw).map (fun x => (vw.2, x)) else none) = [] := by
      rw [List.filterMap_eq_nil_iff]
      intro vw hvw
      rw [if_neg (fun hc => hno ⟨vw, hvw, hc⟩)]
    simp only [cmGetSection, hempty]
    rfl
  · intro s k s' k' h
    unfold cmGetPair CIDict.get
    rw [lookupCi_congr _ h]
  · intro s k v
    unfold cmGetPair
    cases h : cm.confs.get (s, k) <;> simp
  · intro s k
    unfold cmGetPair
    cases h : cm.confs.get (s, k) <;> simp

/-- The environment of the C8 counterexample: one namespace file whose
section header is stored with a capital letter (`Sec`). -/
def envC8 : Env :=
  ⟨[(make_conf_path "NS1",
     some ⟨make_conf_path "NS1", .full, ["Sec"], [("Sec", [("k", "1")])], []⟩)]⟩

/-- The manager that `mkConfigManager envC8 ["NS1"] none none` constructs. -/
def cmC8 : ConfigManager :=
  ⟨envC8, [("NS1", ⟨make_conf_path "NS1", .full, ["Sec"], [("Sec", [("k", "1")])], []⟩)],
   ⟨[(("Sec", "k"), "1")]⟩⟩

set_option maxRecDepth 8000 in
/-- C8 counterexample: on a constructed manager whose merged configuration
stores section `Sec` (capital S), the pair lookup finds `("sec", "K")`
case-insensitively, but the single-string lookup fails for every casing of
the query — `cm["sec"]` and `cm["Sec"]` both raise — contradicting the claim
that the sub-mapping is returned regardless of the stored section's casing. -/
theorem claim_C8_counterexample :
    mkConfigManager envC8 ["NS1"] none none = .ok cmC8 ∧
    cmGetPair cmC8 "sec" "K" = .ok "1" ∧
    cmGetSection cmC8 "sec" = .error (keyNotPresentMsg "sec") ∧
    cmGetSection cmC8 "Sec" = .error (keyNotPresentMsg "Sec") := by
  refine ⟨by decide, by decide, by decide, by decide⟩

/-- C8 witness. -/
theorem claim_C8_witness :
    (∃ vw, vw ∈ (⟨⟨[]⟩, [], ⟨[(("sec", "k"), "1")]⟩⟩ : ConfigManager).confs.keys ∧
      vw.1 = lowerStr "SEC") ∧
    (∃ l, cmGetSection (⟨⟨[]⟩, [], ⟨[(("sec", "k"), "1")]⟩⟩ : ConfigManager) "SEC" = .ok l ∧
      l ≠ []) := by
  refine ⟨⟨("sec", "k"), by decide, by decide⟩, ?_⟩
  exact (claim_C8_amended ⟨⟨[]⟩, [], ⟨[(("sec", "k"), "1")]⟩⟩ "SEC").2.1
    ⟨("sec", "k"), by decide, by decide⟩

/-! ## Flow resolver lemmas and claim C1 -/

theorem get_configs_single_false (env : Env) (ns : String) :
    get_configs env [ns] false
      = .ok (match env.parse (make_conf_path (upperStr ns)) with
          | some cf => [(upperStr ns, cf)]
          | none => []) := by
  simp only [get_configs, get_configsAux]
  cases h : env.parse (make_conf_path (upperStr ns)) <;> rfl

theorem alGet_filter_drop_none (p q : String) :
    ∀ (l : List (String × Option ConfigFile)), (l.map Prod.fst).Nodup →
    (alGet (l.filter (fun e => !(e.1 = p ∧ e.2 = none : Bool))) q = alGet l q ∨
     (alGet (l.filter (fun e => !(e.1 = p ∧ e.2 = none : Bool))) q = none ∧
      alGet l q = some none)) := by
  intro l
  induction l with
  | nil => intro _; left; rfl
  | cons e t ih =>
    intro hnd
    rw [List.map_cons, List.nodup_cons] at hnd
    by_cases hk : (e.1 = p ∧ e.2 = none)
    · rw [List.filter_cons, if_neg (by simp [hk.1, hk.2])]
      by_cases hq : e.1 = q
      · right
        constructor
        · refine (alGet_eq_none_iff _ q).mpr ?_
          intro hc
          rcases List.mem_map.mp hc with ⟨x, hx, hxq⟩
          exact hnd.1 (by rw [← hq] at hxq; exact List.mem_map.mpr ⟨x, List.mem_of_mem_filter hx, hxq⟩)
        · rw [alGet, if_pos hq, hk.2]
      · rw [alGet, if_neg hq]
        exact ih hnd.2
    · rw [List.filter_cons,
        if_pos (by simp only [Bool.not_eq_true', decide_eq_false_iff_not]; exact hk)]
      by_cases hq : e.1 = q
      · left
        rw [alGet, if_pos hq, alGet, if_pos hq]
      · rw [alGet, if_neg hq, alGet, if_neg hq]
        exact ih hnd.2

theorem parse_filter_drop_none (env : Env) (p : String)
    (hnd : (env.files.map Prod.fst).Nodup) (q : String) :
    Env.parse ⟨env.files.filter (fun e => !(e.1 = p ∧ e.2 = none : Bool))⟩ q
      = env.parse q := by
  rcases alGet_filter_drop_none p q env.files hnd with h | ⟨h1, h2⟩
  · unfold Env.parse
    rw [h]
  · unfold Env.parse
    rw [h1, h2]

theorem list_configs_filter_drop_none (p mask : String)
    (l : List (String × Option ConfigFile)) :
    list_configs (list_config_files ⟨l.filter (fun e => !(e.1 = p ∧ e.2 = none : Bool))⟩ mask)
      = list_configs (list_config_files ⟨l⟩ mask) := by
  unfold list_configs list_config_files
  induction l with
  | nil => rfl
  | cons e t ih =>
    by_cases hk : (e.1 = p ∧ e.2 = none)
    · rw [List.filter_cons, if_neg (by simp [hk.1, hk.2])]
      rw [show (e :: t).filter (fun e => fnmatch ⟨afterLastSlash e.1.data⟩ mask)
            = if fnmatch ⟨afterLastSlash e.1.data⟩ mask
              then e :: t.filter (fun e => fnmatch ⟨afterLastSlash e.1.data⟩ mask)
              else t.filter (fun e => fnmatch ⟨afterLastSlash e.1.data⟩ mask)
          from List.filter_cons]
      by_cases hf : fnmatch ⟨afterLastSlash e.1.data⟩ mask = true
      · rw [if_pos hf, List.filterMap_cons, hk.2]
        exact ih
      · rw [if_neg hf]
        exact ih
    · rw [List.filter_cons,
        if_pos (by simp only [Bool.not_eq_true', decide_eq_false_iff_not]; exact hk)]
      rw [show (e :: t).filter (fun e => fnmatch ⟨afterLastSlash e.1.data⟩ mask)
            = if fnmatch ⟨afterLastSlash e.1.data⟩ mask
              then e :: t.filter (fun e => fnmatch ⟨afterLastSlash e.1.data⟩ mask)
              else t.filter (fun e => fnmatch ⟨afterLastSlash e.1.data⟩ mask)
          from List.filter_cons,
          show (e :: t.filter (fun e => !(e.1 = p ∧ e.2 = none : Bool))).filter
                (fun e => fnmatch ⟨afterLastSlash e.1.data⟩ mask)
            = if fnmatch ⟨afterLastSlash e.1.data⟩ mask
              then e :: (t.filter (fun e => !(e.1 = p ∧ e.2 = none : Bool))).filter
                (fun e => fnmatch ⟨afterLastSlash e.1.data⟩ mask)
              else (t.filter (fun e => !(e.1 = p ∧ e.2 = none : Bool))).filter
                (fun e => fnmatch ⟨afterLastSlash e.1.data⟩ mask)
          from List.filter_cons]
      by_cases hf : fnmatch ⟨afterLastSlash e.1.data⟩ mask = true
      · rw [if_pos hf, if_pos hf, List.filterMap_cons, List.filterMap_cons]
        cases e.2 <;> rw [ih]
      · rw [if_neg hf, if_neg hf]
        exact ih

theorem get_config_by_flow_filter_drop_none (env : Env) (p flow_id : String)
    (hnd : (env.files.map Prod.fst).Nodup) :
    get_config_by_flow ⟨env.files.filter (fun e => !(e.1 = p ∧ e.2 = none : Bool))⟩ flow_id
      = get_config_by_flow env flow_id := by
  unfold get_config_by_flow genconfMatches
  dsimp only
  rw [get_configs_single_false, get_configs_single_false,
      parse_filter_drop_none env p hnd, list_configs_filter_drop_none]

/-- C1 (confirmed): flow resolution first attempts a non-required load of the
dedicated namespace (`CM_FSD_FLOW_<FLOWID>` for `.prm`-free flow IDs) and
returns its source when it parses, regardless of the generic files; otherwise
the generic-mask candidates are filtered by their `(flow_setup, for_flows)`
comma-separated list (each element upper-cased and stripped, compared to the
upper-cased flow ID): exactly one match is returned, zero raises
`ConfigNotFound`, several raise a `ConfigError` whose message is built from
every matching file's path; and an unparseable directory entry can be deleted
from the store without changing the result, so a parse failure never makes
resolution itself fail. -/
theorem claim_C1 (env : Env) (flow_id : String)
    (hnd : (env.files.map Prod.fst).Nodup) :
    (∀ cf, env.parse (make_conf_path (upperStr (flowNamespace (upperStr flow_id)))) = some cf →
      get_config_by_flow env flow_id = .ok cf) ∧
    (env.parse (make_conf_path (upperStr (flowNamespace (upperStr flow_id)))) = none →
      ((∀ c, genconfMatches env (upperStr flow_id) = [c] →
        get_config_by_flow env flow_id = .ok c) ∧
       (genconfMatches env (upperStr flow_id) = [] →
        get_config_by_flow env flow_id
          = .error (.configNotFound (noFlowMsg (upperStr flow_id)))) ∧
       (∀ c1 c2 cs, genconfMatches env (upperStr flow_id) = c1 :: c2 :: cs →
        get_config_by_flow env flow_id
          = .error (.configError (ambiguousMsg (upperStr flow_id) (c1 :: c2 :: cs)))))) ∧
    (∀ cf, cf ∈ genconfMatches env (upperStr flow_id) ↔
      (cf ∈ list_configs (list_config_files env CM_GEN_MASK) ∧
        flowMatches (upperStr flow_id) cf = true)) ∧
    (∀ p, get_config_by_flow ⟨env.files.filter (fun e => !(e.1 = p ∧ e.2 = none : Bool))⟩ flow_id
      = get_config_by_flow env flow_id) := by
  refine ⟨?_, ?_, ?_, ?_⟩
  · intro cf hp
    unfold get_config_by_flow
    dsimp only
    rw [get_configs_single_false, hp]
  · intro hp
    refine ⟨?_, ?_, ?_⟩
    · intro c hc
      unfold get_config_by_flow
      dsimp only
      rw [get_configs_single_false, hp, hc]
    · intro hc
      unfold get_config_by_flow
      dsimp only
      rw [get_configs_single_false, hp, hc]
    · intro c1 c2 cs hc
      unfold get_config_by_flow
      dsimp only
      rw [get_configs_single_false, hp, hc]
  · intro cf
    unfold genconfMatches
    rw [List.mem_filter]
  · intro p
    exact get_config_by_flow_filter_drop_none env p flow_id hnd

/-- The environment of the C1 witness: one dedicated flow file and one
generic file, with distinct paths. -/
def envC1 : Env :=
  ⟨[(make_conf_path "CM_FSD_FLOW_MYFLOW",
     some ⟨make_conf_path "CM_FSD_FLOW_MYFLOW", .full, ["sec"], [("sec", [("k", "d")])], []⟩),
    (make_conf_path "CM_FSD_FLOW_GEN_A",
     some ⟨make_conf_path "CM_FSD_FLOW_GEN_A", .full, ["flow_setup"],
       [("flow_setup", [("for_flows", "myflow")])], []⟩)]⟩

/-- The dedicated flow file of `envC1`. -/
def dedC1 : ConfigFile :=
  ⟨make_conf_path "CM_FSD_FLOW_MYFLOW", .full, ["sec"], [("sec", [("k", "d")])], []⟩

set_option maxRecDepth 8000 in
/-- C1 witness. -/
theorem claim_C1_witness :
    ((envC1.files.map Prod.fst).Nodup) ∧
    Env.parse envC1 (make_conf_path (upperStr (flowNamespace (upperStr "myflow"))))
      = some dedC1 ∧
    get_config_by_flow envC1 "myflow" = .ok dedC1 := by
  refine ⟨?_, by decide, ?_⟩
  · decide
  · exact (claim_C1 envC1 "myflow" (by decide)).1 dedC1 (by decide)

end FsdCM
